import Mathlib

/-!
Verification of the email classifier's classification & reconciliation engine.

The definitions below are a shallow embedding of the Python source:
`database.py` (the journal), `config.py` (the shared formatter),
`main.py` (ingest, recheck and correction jobs, job permit).
Timestamps are modelled as integers (seconds); ISO timestamp string
comparison in SQL is order-isomorphic to integer comparison for the
fixed `isoformat` layout the code writes.  The `attachment_types` TEXT
column only ever holds `json.dumps` of a list, so it is modelled by the
list itself; the `ambiguous_labels` TEXT column is modelled as the
stored text because the code feeds both lists and raw column text into
`json.dumps` for it.
-/

set_option linter.unusedVariables false

namespace EmailClassifier

/-- Values that Python code passes as the `ambiguous_labels` argument of
`update_recheck_status`: `None`, a raw string (the TEXT column value), or a
list of label strings. -/
inductive PyStrVal where
  | none : PyStrVal
  | str (s : String) : PyStrVal
  | list (l : List String) : PyStrVal
deriving Repr, DecidableEq

/-- Python truthiness for `PyStrVal` (`None`, `""` and `[]` are falsy). -/
def PyStrVal.truthy : PyStrVal → Bool
  | .none => false
  | .str s => !(s == "")
  | .list l => !l.isEmpty

/-- JSON escaping of a single character (quote and backslash; other
characters in the label domain pass through unchanged). -/
def jsonEscapeChar (c : Char) : String :=
  if c == '\\' then "\\\\"
  else if c == '"' then "\\\""
  else String.singleton c

/-- JSON escaping of a string body. -/
def jsonEscape (s : String) : String :=
  String.join (s.data.map jsonEscapeChar)

/-- JSON encoding of a string (quotes added). -/
def jsonStr (s : String) : String := "\"" ++ jsonEscape s ++ "\""

/-- Model of Python `json.dumps` restricted to the values the code passes
(default separators, hence the comma-space in lists). -/
def PyStrVal.dumps : PyStrVal → String
  | .none => "null"
  | .str s => jsonStr s
  | .list l => "[" ++ String.intercalate ", " (l.map jsonStr) ++ "]"

/-- A row of the `logs` table (see `init_db` in `database.py`). -/
structure LogRecord where
  id : String
  timestamp : Int
  sender : String
  recipient : String
  cc : String
  subject : String
  body : String
  mass_mail : Bool
  attachment_types : List String
  predicted_category : String
  confidence_score : Rat
  corrected_category : Option String
  is_read : Bool
  last_recheck : Option Int
  ambiguous_labels : Option String
deriving Repr, DecidableEq

/-- The journal state: the rows of the `logs` table (ids are the primary
key, so at most one row per id is ever created by `add_log`). -/
abbrev Db := List LogRecord

/-- `get_log_by_id` of `database.py`: `SELECT * FROM logs WHERE id = ?`. -/
def get_log_by_id (db : Db) (log_id : String) : Option LogRecord :=
  db.find? (fun r => r.id == log_id)

/-- The arguments of `add_log` in `database.py` (defaulted parameters are
carried explicitly; `timestamp=None` means "use ingest time now"). -/
structure AddLogArgs where
  id : String
  sender : String
  recipient : String
  subject : String
  predicted_category : String
  confidence_score : Rat
  timestamp : Option Int
  body : String
  cc : String
  mass_mail : Bool
  attachment_types : Option (List String)
deriving Repr

/-- The `DO UPDATE SET` clause of `add_log` applied to one row: only the
classification columns are in the SET list. -/
def updClassification (a : AddLogArgs) (now : Int) (r : LogRecord) : LogRecord :=
  if r.id == a.id then
    { r with
      timestamp := a.timestamp.getD now
      sender := a.sender
      recipient := a.recipient
      cc := a.cc
      subject := a.subject
      body := a.body
      mass_mail := a.mass_mail
      attachment_types := a.attachment_types.getD []
      predicted_category := a.predicted_category
      confidence_score := a.confidence_score }
  else r

/-- The `INSERT` row of `add_log`: `is_read = 0`, the correction, recheck
and ambiguity columns NULL. -/
def freshRow (a : AddLogArgs) (now : Int) : LogRecord :=
  { id := a.id
    timestamp := a.timestamp.getD now
    sender := a.sender
    recipient := a.recipient
    cc := a.cc
    subject := a.subject
    body := a.body
    mass_mail := a.mass_mail
    attachment_types := a.attachment_types.getD []
    predicted_category := a.predicted_category
    confidence_score := a.confidence_score
    corrected_category := Option.none
    is_read := false
    last_recheck := Option.none
    ambiguous_labels := Option.none }

/-- `add_log` of `database.py`: `INSERT ... ON CONFLICT(id) DO UPDATE SET
timestamp, sender, recipient, cc, subject, body, mass_mail,
attachment_types, predicted_category, confidence_score` — the columns
`corrected_category`, `is_read`, `last_recheck`, `ambiguous_labels` are not
in the SET list, so an update keeps them; an insert writes `is_read = 0`
and leaves the other three NULL. -/
def add_log (db : Db) (a : AddLogArgs) (now : Int) : Db :=
  if db.any (fun r => r.id == a.id) then
    db.map (updClassification a now)
  else
    db ++ [freshRow a now]

/-- A sequence of ingest upserts (each with its own "now" clock value). -/
def run_upserts (db : Db) (ops : List (AddLogArgs × Int)) : Db :=
  ops.foldl (fun d op => add_log d op.1 op.2) db

/-- Finding in a map that does not move or re-key rows commutes with the
row transformation. -/
theorem find?_map_of_id_eq (f : LogRecord → LogRecord)
    (hid : ∀ r, (f r).id = r.id) (i : String) :
    ∀ db : Db, (db.map f).find? (fun r => r.id == i)
      = (db.find? (fun r => r.id == i)).map f := by
  intro db
  induction db with
  | nil => rfl
  | cons head tail ih =>
    by_cases h : head.id = i
    · have hbe : (head.id == i) = true := by simp [h]
      simp [List.find?, hid, hbe]
    · have hbe : (head.id == i) = false := by simp [h]
      simp [List.find?, hid, hbe, ih]

/-- One `add_log` keeps the four manual columns of every pre-existing row. -/
theorem add_log_preserves_manual (db : Db) (a : AddLogArgs) (now : Int)
    (i : String) (r : LogRecord) (h : get_log_by_id db i = some r) :
    ∃ r', get_log_by_id (add_log db a now) i = some r' ∧
      r'.corrected_category = r.corrected_category ∧
      r'.last_recheck = r.last_recheck ∧
      r'.ambiguous_labels = r.ambiguous_labels ∧
      r'.is_read = r.is_read := by
  have hid : ∀ rr : LogRecord, (updClassification a now rr).id = rr.id := by
    intro rr
    by_cases hrr : rr.id = a.id <;> simp [updClassification, hrr]
  cases hany : db.any (fun r => r.id == a.id) with
  | true =>
    have hform : add_log db a now = db.map (updClassification a now) := by
      simp [add_log, hany]
    rw [hform, get_log_by_id, find?_map_of_id_eq _ hid]
    rw [get_log_by_id] at h
    rw [h]
    refine ⟨updClassification a now r, rfl, ?_, ?_, ?_, ?_⟩ <;>
      by_cases hre : r.id = a.id <;> simp [updClassification, hre]
  | false =>
    have hform : add_log db a now = db ++ [freshRow a now] := by
      simp [add_log, hany]
    rw [hform, get_log_by_id, List.find?_append]
    rw [get_log_by_id] at h
    rw [h]
    exact ⟨r, rfl, rfl, rfl, rfl, rfl⟩

/-- C2: for every id and every sequence of journal upserts, the fields
`corrected_category`, `last_recheck`, `ambiguous_labels` and `is_read` of
the row for that id are exactly what they were before the sequence:
`add_log` updates only the classification columns and never clobbers the
correction, recheck, ambiguity or read-bit columns. -/
theorem C2_upsert_preserves_manual_fields (db : Db)
    (ops : List (AddLogArgs × Int)) (i : String) (r : LogRecord)
    (h : get_log_by_id db i = some r) :
    ∃ r', get_log_by_id (run_upserts db ops) i = some r' ∧
      r'.corrected_category = r.corrected_category ∧
      r'.last_recheck = r.last_recheck ∧
      r'.ambiguous_labels = r.ambiguous_labels ∧
      r'.is_read = r.is_read := by
  induction ops generalizing db r with
  | nil => exact ⟨r, h, rfl, rfl, rfl, rfl⟩
  | cons op rest ih =>
    obtain ⟨r1, h1, hc1, hl1, ha1, hr1⟩ :=
      add_log_preserves_manual db op.1 op.2 i r h
    obtain ⟨r2, h2, hc2, hl2, ha2, hr2⟩ := ih (add_log db op.1 op.2) r1 h1
    exact ⟨r2, h2, hc2.trans hc1, hl2.trans hl1, ha2.trans ha1, hr2.trans hr1⟩

/-- A concrete journal row used by witnesses. -/
def rowW : LogRecord :=
  { id := "m1"
    timestamp := 1000
    sender := "a@x"
    recipient := "me@x"
    cc := ""
    subject := "s"
    body := "b"
    mass_mail := false
    attachment_types := ["PDF"]
    predicted_category := "NOISE"
    confidence_score := (9 : Rat) / 10
    corrected_category := some "FOCUS"
    is_read := true
    last_recheck := some 2000
    ambiguous_labels := some "[\"FOCUS\", \"URGENT\"]" }

/-- A concrete upsert argument pack used by witnesses. -/
def argsW : AddLogArgs :=
  { id := "m1"
    sender := "c@y"
    recipient := "me@x"
    subject := "s2"
    predicted_category := "URGENT"
    confidence_score := (1 : Rat) / 2
    timestamp := Option.none
    body := "b2"
    cc := "d@y"
    mass_mail := true
    attachment_types := Option.none }

/-- Witness for C2 at a concrete one-row journal and a two-upsert run. -/
theorem C2_witness :
    ∃ r', get_log_by_id (run_upserts [rowW] [(argsW, 5000), (argsW, 6000)]) "m1"
        = some r' ∧
      r'.corrected_category = rowW.corrected_category ∧
      r'.last_recheck = rowW.last_recheck ∧
      r'.ambiguous_labels = rowW.ambiguous_labels ∧
      r'.is_read = rowW.is_read :=
  C2_upsert_preserves_manual_fields [rowW] [(argsW, 5000), (argsW, 6000)]
    "m1" rowW (by rfl)

/-- `update_log_correction` of `database.py`:
`UPDATE logs SET corrected_category = ? WHERE id = ?`. -/
def update_log_correction (db : Db) (log_id : String) (corrected : String) : Db :=
  db.map (fun r =>
    if r.id == log_id then { r with corrected_category := some corrected } else r)

/-- `update_recheck_status` of `database.py`: for the row `id`, sets
`last_recheck = now` and `ambiguous_labels` to `json.dumps(x)` when `x` is
truthy, NULL otherwise. -/
def update_recheck_status (db : Db) (log_id : String) (amb : PyStrVal)
    (now : Int) : Db :=
  db.map (fun r =>
    if r.id == log_id then
      { r with
        last_recheck := some now
        ambiguous_labels := if amb.truthy then some amb.dumps else Option.none }
    else r)

/-- `ack_notifications` of `database.py`: a truthy (non-empty) id list runs
`UPDATE logs SET is_read = 1 WHERE id IN (...)`; `None` or `[]` runs
`UPDATE logs SET is_read = 1 WHERE is_read = 0`. -/
def ack_notifications (db : Db) (log_ids : Option (List String)) : Db :=
  match log_ids with
  | some l =>
    if !l.isEmpty then
      db.map (fun r => if l.contains r.id then { r with is_read := true } else r)
    else
      db.map (fun r => if !r.is_read then { r with is_read := true } else r)
  | Option.none =>
    db.map (fun r => if !r.is_read then { r with is_read := true } else r)

/-- Seconds in an hour (timedelta granularity of the recheck query). -/
def hourSec : Int := 3600

/-- Seconds in a day. -/
def daySec : Int := 86400

/-- The `last_recheck IS NULL OR last_recheck < threshold` disjunct of the
recheck candidate query. -/
def lrBefore (r : LogRecord) (th : Int) : Bool :=
  match r.last_recheck with
  | Option.none => true
  | some lr => decide (lr < th)

/-- The WHERE clause of `get_candidate_logs_for_recheck` in `database.py`,
with ISO-string comparison rendered as integer comparison: four age bands
on `timestamp` with a `last_recheck` threshold each. -/
def eligibleForRecheck (now : Int) (r : LogRecord) : Bool :=
  (decide (r.timestamp > now - daySec) && lrBefore r (now - 12 * hourSec)) ||
  (decide (r.timestamp ≤ now - daySec) && decide (r.timestamp > now - 7 * daySec)
    && lrBefore r (now - 24 * hourSec)) ||
  (decide (r.timestamp ≤ now - 7 * daySec) && decide (r.timestamp > now - 30 * daySec)
    && lrBefore r (now - 7 * daySec)) ||
  (decide (r.timestamp ≤ now - 30 * daySec) && lrBefore r (now - 30 * daySec))

/-- Insertion into a list kept in decreasing `timestamp` order. -/
def insertByTsDesc (r : LogRecord) : List LogRecord → List LogRecord
  | [] => [r]
  | x :: xs =>
    if x.timestamp ≥ r.timestamp then x :: insertByTsDesc r xs else r :: x :: xs

/-- `ORDER BY timestamp DESC` rendered as an insertion sort. -/
def sortByTsDesc : List LogRecord → List LogRecord
  | [] => []
  | x :: xs => insertByTsDesc x (sortByTsDesc xs)

/-- `get_candidate_logs_for_recheck` of `database.py`: WHERE filter, then
`ORDER BY timestamp DESC`, then `LIMIT`. -/
def get_candidate_logs_for_recheck (db : Db) (now : Int) (limit : Nat) :
    List LogRecord :=
  (sortByTsDesc (db.filter (eligibleForRecheck now))).take limit

/-- Modelled from the claim's words: the §4.F gliding-scale table with the
minimum-gap reading `gap ≥ threshold` ("age < 1 day requires gap ≥ 12 h;
1–7 days requires ≥ 24 h; 7–30 days requires ≥ 7 d; > 30 days requires
≥ 30 d"), a missing `last_recheck` counting as infinite gap. -/
def claimTableEligible (now : Int) (r : LogRecord) : Bool :=
  let age := now - r.timestamp
  let gapGE (th : Int) : Bool :=
    match r.last_recheck with
    | Option.none => true
    | some lr => decide (now - lr ≥ th)
  (decide (age < daySec) && gapGE (12 * hourSec)) ||
  (decide (daySec ≤ age) && decide (age < 7 * daySec) && gapGE (24 * hourSec)) ||
  (decide (7 * daySec ≤ age) && decide (age ≤ 30 * daySec) && gapGE (7 * daySec)) ||
  (decide (30 * daySec < age) && gapGE (30 * daySec))

/-- The gliding-scale table as the code enforces it: the same age bands with
`> 30 days` read as `≥ 30 days`, and every gap requirement strict
(`gap > threshold`), infinite gap for a missing `last_recheck`. -/
def amendedTableEligible (now : Int) (r : LogRecord) : Bool :=
  let age := now - r.timestamp
  let gapGT (th : Int) : Bool :=
    match r.last_recheck with
    | Option.none => true
    | some lr => decide (now - lr > th)
  (decide (age < daySec) && gapGT (12 * hourSec)) ||
  (decide (daySec ≤ age) && decide (age < 7 * daySec) && gapGT (24 * hourSec)) ||
  (decide (7 * daySec ≤ age) && decide (age < 30 * daySec) && gapGT (7 * daySec)) ||
  (decide (30 * daySec ≤ age) && gapGT (30 * daySec))

/-- The candidate query's WHERE clause agrees pointwise with the amended
(strict-gap) table. -/
theorem eligible_eq_amended (now : Int) (r : LogRecord) :
    eligibleForRecheck now r = amendedTableEligible now r := by
  cases hlr : r.last_recheck with
  | none =>
    simp only [eligibleForRecheck, amendedTableEligible, lrBefore, hlr,
      hourSec, daySec]
    rw [Bool.eq_iff_iff]
    simp only [Bool.or_eq_true, Bool.and_eq_true, decide_eq_true_eq, and_true]
    omega
  | some lr =>
    simp only [eligibleForRecheck, amendedTableEligible, lrBefore, hlr,
      hourSec, daySec]
    rw [Bool.eq_iff_iff]
    simp only [Bool.or_eq_true, Bool.and_eq_true, decide_eq_true_eq, and_true]
    omega

/-- The concrete clock instant of the C3 counterexample. -/
def cexNow : Int := 10000000

/-- A row received at `cexNow` (age 0) whose last recheck was exactly 12
hours ago: the claim's table (`gap ≥ 12 h`) admits it, the query does not. -/
def cexRow3 : LogRecord :=
  { id := "g3cex"
    timestamp := 10000000
    sender := "a@x"
    recipient := "me@x"
    cc := ""
    subject := "s"
    body := "b"
    mass_mail := false
    attachment_types := []
    predicted_category := "NOISE"
    confidence_score := 1
    corrected_category := Option.none
    is_read := false
    last_recheck := some (10000000 - 43200)
    ambiguous_labels := Option.none }

/-- C3 counterexample: `cexRow3` satisfies the gliding-scale table as the
claim states it (age < 1 day, gap = 12 h ≥ 12 h), yet
`get_candidate_logs_for_recheck` does not return it — the query demands a
strictly larger gap. -/
theorem C3_counterexample :
    claimTableEligible cexNow cexRow3 = true ∧
    get_candidate_logs_for_recheck [cexRow3] cexNow 10 = [] := by
  constructor
  · decide
  · decide

/-- C3 (amended): `get_candidate_logs_for_recheck` returns exactly the
records eligible under the strict-gap version of the gliding-scale table
(age < 1 day needs gap > 12 h; 1–7 days gap > 24 h; 7–30 days gap > 7 d;
≥ 30 days gap > 30 d; missing `last_recheck` is an infinite gap), ordered
by `timestamp` descending and truncated to `limit`. -/
theorem C3_gliding_scale_amended (db : Db) (now : Int) (limit : Nat) :
    get_candidate_logs_for_recheck db now limit
      = (sortByTsDesc (db.filter (amendedTableEligible now))).take limit := by
  unfold get_candidate_logs_for_recheck
  rw [List.filter_congr (fun r _ => eligible_eq_amended now r)]

/-- A helper row with all-default manual fields for ack witnesses. -/
def mkRow (i : String) (ts : Int) (isRead : Bool) : LogRecord :=
  { id := i
    timestamp := ts
    sender := "a@x"
    recipient := "me@x"
    cc := ""
    subject := "s"
    body := "b"
    mass_mail := false
    attachment_types := []
    predicted_category := "NOISE"
    confidence_score := 1
    corrected_category := Option.none
    is_read := isRead
    last_recheck := Option.none
    ambiguous_labels := Option.none }

/-- C10: `ack_notifications` with `None` or with an empty list marks every
record read (identical behaviour), and with a non-empty list marks read
exactly the rows whose id is listed, leaving every other row's read bit —
and everything else — unchanged. -/
theorem C10_ack_notifications (db : Db) (l : List String) (hne : l ≠ []) :
    ack_notifications db Option.none = db.map (fun r => { r with is_read := true }) ∧
    ack_notifications db (some []) = db.map (fun r => { r with is_read := true }) ∧
    ack_notifications db (some l)
      = db.map (fun r =>
          if l.contains r.id then { r with is_read := true } else r) := by
  have hall : (db.map (fun r => if !r.is_read then { r with is_read := true } else r))
      = db.map (fun r => { r with is_read := true }) := by
    apply List.map_congr_left
    intro r _
    cases hr : r.is_read
    · simp [hr]
    · cases r
      simp_all
  refine ⟨?_, ?_, ?_⟩
  · exact hall
  · simpa [ack_notifications] using hall
  · cases l with
    | nil => exact absurd rfl hne
    | cons x xs => rfl

/-- Witness for C10 at a concrete three-row journal and id list. -/
theorem C10_witness :
    ack_notifications [mkRow "a" 1 false, mkRow "b" 2 true] (some ["a"])
      = [mkRow "a" 1 true, mkRow "b" 2 true] ∧ ("a" :: []) ≠ [] := by
  constructor
  · have h := (C10_ack_notifications
      [mkRow "a" 1 false, mkRow "b" 2 true] ["a"] (by simp)).2.2
    rw [h]
    decide
  · simp

/-- The `E5_PREFIX` passage marker of `config.py`. -/
def e5Head : String := "passage: "

/-- `determine_role` of `config.py`: case-insensitive substring search of
the configured self-addresses in the raw To header, then in Cc. -/
def determine_role (myEmails : List String) (toAddr cc : String) : String :=
  let toL := toAddr.toLower
  let ccL := cc.toLower
  if myEmails.any (fun addr => decide (List.IsInfix addr.data toL.data)) then
    "Direct"
  else if myEmails.any (fun addr => decide (List.IsInfix addr.data ccL.data)) then
    "CC"
  else "Hidden"

/-- `format_attachment_types` of `config.py`: "None" for an empty list,
otherwise the comma-space join in brackets. -/
def format_attachment_types (attachment_types : List String) : String :=
  if attachment_types.isEmpty then "None"
  else "[" ++ String.intercalate ", " attachment_types ++ "]"

/-- `format_model_input` of `config.py`: the shared formatter, assembled
chunk by chunk exactly as the f-string does. -/
def format_model_input (myEmails : List String)
    (subject body sender toAddr cc : String) (mass_mail : Bool)
    (attachment_types : Option (List String)) : String :=
  let role := determine_role myEmails toAddr cc
  let mass_mail_str := if mass_mail then "Yes" else "No"
  let att_types_str := format_attachment_types (attachment_types.getD [])
  let structured :=
    "Role: " ++ role ++ " | " ++
    "Mass Mail: " ++ mass_mail_str ++ " | " ++
    "Attachment Types: " ++ att_types_str ++ " | " ++
    "From: " ++ sender ++ " | " ++
    "To: " ++ toAddr ++ " | " ++
    "Subject: " ++ subject ++ " | " ++
    "Body: " ++ body
  e5Head ++ structured

/-- Comma-space join written by direct recursion, used only on the
spec-modelled side of the formatter claim. -/
def commaJoin : List String → String
  | [] => ""
  | [t] => t
  | t :: ts => t ++ ", " ++ commaJoin ts

/-- Modelled from the spec: the `Attachment Types` placeholder, "None" when
the list is absent or empty, else the bracketed comma-space join of the
tags in order. -/
def claimAttText : Option (List String) → String
  | Option.none => "None"
  | some [] => "None"
  | some (t :: ts) => "[" ++ commaJoin (t :: ts) ++ "]"

/-- Modelled from the spec: the template
`passage: Role: .. | Mass Mail: .. | Attachment Types: .. | From: .. |
To: .. | Subject: .. | Body: ..` as seven fields joined by the pipe
separator, mass mail rendered Yes/No. -/
def claimFormatterOutput (myEmails : List String)
    (subject body sender toAddr cc : String) (mass_mail : Bool)
    (attachment_types : Option (List String)) : String :=
  "passage: " ++ String.intercalate " | "
    ["Role: " ++ determine_role myEmails toAddr cc,
     "Mass Mail: " ++ (if mass_mail then "Yes" else "No"),
     "Attachment Types: " ++ claimAttText attachment_types,
     "From: " ++ sender,
     "To: " ++ toAddr,
     "Subject: " ++ subject,
     "Body: " ++ body]

/-- Accumulator splitting for the inner loop of `String.intercalate`. -/
theorem intercalate_go_acc (s : String) (l : List String) :
    ∀ acc₁ acc₂ : String, String.intercalate.go (acc₁ ++ acc₂) s l
      = acc₁ ++ String.intercalate.go acc₂ s l := by
  induction l with
  | nil => intro a b; rfl
  | cons x xs ih =>
    intro a b
    show String.intercalate.go (a ++ b ++ s ++ x) s xs
        = a ++ String.intercalate.go (b ++ s ++ x) s xs
    have h1 : a ++ b ++ s ++ x = a ++ (b ++ s ++ x) := by
      simp [String.append_assoc]
    rw [h1, ih]

/-- Unfolding of `String.intercalate` on a two-or-more element list. -/
theorem intercalate_cons_cons (s a b : String) (l : List String) :
    String.intercalate s (a :: b :: l) = a ++ s ++ String.intercalate s (b :: l) := by
  show String.intercalate.go ((a ++ s) ++ b) s l
      = (a ++ s) ++ String.intercalate.go b s l
  rw [intercalate_go_acc]

/-- `String.intercalate` on a one-element list is that element. -/
theorem intercalate_singleton (s a : String) : String.intercalate s [a] = a :=
  rfl

/-- `String.intercalate ", "` agrees with the direct-recursion join. -/
theorem intercalate_eq_commaJoin : ∀ l : List String,
    String.intercalate ", " l = commaJoin l
  | [] => rfl
  | [t] => rfl
  | t :: h :: ts => by
    rw [intercalate_cons_cons, intercalate_eq_commaJoin (h :: ts)]
    rfl

/-- C7: for every input, the shared formatter returns exactly the claimed
template string — `passage: ` prefix, pipe-separated fields in the stated
order, `Yes`/`No` for the mass-mail flag, `None` for an absent or empty
attachment list and the bracketed comma-space join otherwise. -/
theorem C7_formatter (myEmails : List String)
    (subject body sender toAddr cc : String) (mass_mail : Bool)
    (attachment_types : Option (List String)) :
    format_model_input myEmails subject body sender toAddr cc mass_mail
        attachment_types
      = claimFormatterOutput myEmails subject body sender toAddr cc mass_mail
        attachment_types := by
  have hatt : format_attachment_types (attachment_types.getD [])
      = claimAttText attachment_types := by
    cases attachment_types with
    | none => rfl
    | some l =>
      cases l with
      | nil => rfl
      | cons t ts =>
        simp [format_attachment_types, claimAttText, intercalate_eq_commaJoin]
  unfold format_model_input claimFormatterOutput e5Head
  rw [hatt]
  rw [intercalate_cons_cons, intercalate_cons_cons, intercalate_cons_cons,
    intercalate_cons_cons, intercalate_cons_cons, intercalate_cons_cons,
    intercalate_singleton]
  refine String.ext ?_
  simp only [String.data_append, List.append_assoc]

/-- A training-data line as `add_to_training_data` emits it (the JSON keys
subject, body, from, to, cc, mass_mail, attachment_types; `from` is spelt
`from_addr` here because `from` is reserved). -/
structure TrainExample where
  subject : String
  body : String
  from_addr : String
  to_addr : String
  cc : String
  mass_mail : Bool
  attachment_types : List String
deriving Repr, DecidableEq

/-- The example object `add_to_training_data` builds from a journal row:
subject, body, from=sender, to=recipient, cc, mass_mail and the stored
attachment tags. -/
def exampleOfRow (r : LogRecord) : TrainExample :=
  { subject := r.subject
    body := r.body
    from_addr := r.sender
    to_addr := r.recipient
    cc := r.cc
    mass_mail := r.mass_mail
    attachment_types := r.attachment_types }

/-- The training-data store: the concatenation of all per-category `.jsonl`
files, each append recorded as (category, line). -/
abbrev TrainStore := List (String × TrainExample)

/-- `add_to_training_data` of `main.py`: appends exactly one line to the
`category`.jsonl file. -/
def add_to_training_data (tr : TrainStore) (log : LogRecord)
    (corrected : String) : TrainStore :=
  tr ++ [(corrected, exampleOfRow log)]

/-- HTTP outcome of the `correct_label` endpoint. -/
inductive CorrectStatus where
  | badRequest400 : CorrectStatus
  | notFound404 : CorrectStatus
  | success : CorrectStatus
deriving Repr, DecidableEq

/-- `correct_label` endpoint of `main.py`: 400 when the category is not in
the snapshot, then 404 when the id has no journal row, otherwise it writes
the correction and appends one training line. -/
def correct_label (available : List String) (db : Db) (tr : TrainStore)
    (log_id category : String) : CorrectStatus × Db × TrainStore :=
  if !(available.contains category) then
    (CorrectStatus.badRequest400, db, tr)
  else
    match get_log_by_id db log_id with
    | Option.none => (CorrectStatus.notFound404, db, tr)
    | some log_entry =>
      (CorrectStatus.success, update_log_correction db log_id category,
        add_to_training_data tr log_entry category)

/-- Looking up a row after `update_log_correction` yields the same row with
`corrected_category` overwritten. -/
theorem get_after_correction (db : Db) (log_id category : String)
    (log : LogRecord) (h : get_log_by_id db log_id = some log) :
    get_log_by_id (update_log_correction db log_id category) log_id
      = some { log with corrected_category := some category } := by
  have hid : ∀ r : LogRecord,
      ((fun r => if r.id == log_id then
          { r with corrected_category := some category } else r) r).id = r.id := by
    intro r
    by_cases hr : r.id = log_id <;> simp [hr]
  unfold update_log_correction
  rw [get_log_by_id, find?_map_of_id_eq _ hid]
  rw [get_log_by_id] at h
  rw [h]
  have hlid : log.id = log_id := by
    have := List.find?_some h
    simpa using this
  simp [hlid]

/-- C8: `correct_label(id, category)` returns 400 and changes nothing when
the category is not in the snapshot; otherwise 404 and changes nothing when
the id has no journal row; otherwise it succeeds, the row's
`corrected_category` becomes the category, and exactly one training line is
appended under that category. -/
theorem C8_correct_label (available : List String) (db : Db)
    (tr : TrainStore) (log_id category : String) :
    (category ∉ available →
      correct_label available db tr log_id category
        = (CorrectStatus.badRequest400, db, tr)) ∧
    (category ∈ available → get_log_by_id db log_id = Option.none →
      correct_label available db tr log_id category
        = (CorrectStatus.notFound404, db, tr)) ∧
    (∀ log_entry, category ∈ available →
      get_log_by_id db log_id = some log_entry →
      correct_label available db tr log_id category
        = (CorrectStatus.success, update_log_correction db log_id category,
           tr ++ [(category, exampleOfRow log_entry)]) ∧
      get_log_by_id (update_log_correction db log_id category) log_id
        = some { log_entry with corrected_category := some category }) := by
  refine ⟨?_, ?_, ?_⟩
  · intro h
    have hc : available.contains category = false := by
      simpa using h
    unfold correct_label
    rw [hc]
    rfl
  · intro h hnone
    have hc : available.contains category = true := by
      simpa using h
    unfold correct_label
    rw [hc, hnone]
    rfl
  · intro log_entry h hsome
    have hc : available.contains category = true := by
      simpa using h
    constructor
    · unfold correct_label
      rw [hc, hsome]
      rfl
    · exact get_after_correction db log_id category log_entry hsome

/-- Witness for C8: all three behaviours at a concrete journal. -/
theorem C8_witness :
    correct_label ["FOCUS"] [rowW] [] "m1" "BAD"
      = (CorrectStatus.badRequest400, [rowW], []) ∧
    correct_label ["FOCUS"] [rowW] [] "zz" "FOCUS"
      = (CorrectStatus.notFound404, [rowW], []) ∧
    correct_label ["FOCUS"] [rowW] [] "m1" "FOCUS"
      = (CorrectStatus.success, update_log_correction [rowW] "m1" "FOCUS",
         [("FOCUS", exampleOfRow rowW)]) := by
  refine ⟨?_, ?_, ?_⟩
  · exact (C8_correct_label ["FOCUS"] [rowW] [] "m1" "BAD").1 (by decide)
  · exact (C8_correct_label ["FOCUS"] [rowW] [] "zz" "FOCUS").2.1
      (by decide) (by rfl)
  · simpa using ((C8_correct_label ["FOCUS"] [rowW] [] "m1" "FOCUS").2.2
      rowW (by decide) (by rfl)).1

/-- Python `x or y` on an optional string against a string default, as in
`log['corrected_category'] or log['predicted_category']`: `None` and the
empty string are falsy. -/
def pyOrStr (a : Option String) (b : String) : String :=
  match a with
  | Option.none => b
  | some s => if s == "" then b else s

/-- Python truthiness of an optional string local, as in
`if correction_candidate:`. -/
def truthyOpt (a : Option String) : Bool :=
  match a with
  | Option.none => false
  | some s => !(s == "")

/-- The `ambiguous_labels` column value as the Python value
`log['ambiguous_labels']` (NULL reads back as `None`, TEXT as `str`). -/
def pyOfCol : Option String → PyStrVal
  | Option.none => PyStrVal.none
  | some s => PyStrVal.str s

/-- The four locals `is_ambiguous`, `correction_candidate`,
`cleanup_needed`, `verified_candidate` computed by the reconciliation
conditionals of `check_corrections_job`. -/
structure ReconcileDecision where
  is_ambiguous : Bool
  correction_candidate : Option String
  cleanup_needed : Bool
  verified_candidate : Option String
deriving Repr, DecidableEq

/-- The state classification of `check_corrections_job` (`main.py`): given
the trained labels found on the server, the verification flag and the local
truth, the nested conditionals over `len(trained_found)`,
`is_verified`, membership of `current_local` and the `others` list. -/
def classifyState (trained_found : List String) (is_verified : Bool)
    (current_local : String) : ReconcileDecision :=
  match trained_found with
  | [] => ⟨false, Option.none, false, Option.none⟩
  | [candidate] =>
    if is_verified then
      if !(candidate == current_local) then
        ⟨false, some candidate, false, some candidate⟩
      else
        ⟨false, Option.none, false, some candidate⟩
    else
      if !(candidate == current_local) then
        ⟨false, some candidate, false, Option.none⟩
      else
        ⟨false, Option.none, false, Option.none⟩
  | _ :: _ :: _ =>
    let others := trained_found.filter (fun l => !(l == current_local))
    if is_verified then
      if trained_found.contains current_local then
        match others with
        | [x] => ⟨false, some x, true, some x⟩
        | _ => ⟨true, Option.none, false, Option.none⟩
      else ⟨true, Option.none, false, Option.none⟩
    else
      if trained_found.contains current_local then
        match others with
        | [x] => ⟨false, some x, true, Option.none⟩
        | _ => ⟨true, Option.none, false, Option.none⟩
      else ⟨true, Option.none, false, Option.none⟩

/-- The observable operations a recheck pass performs, in program order:
gateway label additions/removals, journal correction writes, training-data
appends (tagged with the message id they came from) and recheck-status
writes. -/
inductive Action where
  | applyLabelA (id label : String) : Action
  | removeLabelA (id label : String) : Action
  | setCorrection (id category : String) : Action
  | emitTraining (id category : String) (ex : TrainExample) : Action
  | setRecheck (id : String) (amb : PyStrVal) : Action
deriving Repr, DecidableEq

/-- The per-candidate body of `check_corrections_job`: when the id is
absent from the gateway's label map, `update_recheck_status(gid,
log['ambiguous_labels'])` and continue; otherwise compute `trained_found`,
`is_verified`, `current_local`, classify, and execute the ambiguous branch
or the correction / verification / recheck-clear sequence in code order. -/
def reconcileActions (known_categories : List String)
    (verification_label : String)
    (labels_map : String → Option (List String)) (log : LogRecord) :
    List Action :=
  match labels_map log.id with
  | Option.none => [Action.setRecheck log.id (pyOfCol log.ambiguous_labels)]
  | some found_labels =>
    let trained_found :=
      found_labels.filter (fun lbl => known_categories.contains lbl)
    let is_verified := found_labels.contains verification_label
    let current_local := pyOrStr log.corrected_category log.predicted_category
    let d := classifyState trained_found is_verified current_local
    if d.is_ambiguous then
      [Action.setRecheck log.id (PyStrVal.list trained_found)]
    else
      (if truthyOpt d.correction_candidate then
        [Action.setCorrection log.id (d.correction_candidate.getD ""),
         Action.emitTraining log.id (d.correction_candidate.getD "")
           (exampleOfRow log)]
        ++ (if d.cleanup_needed then
              [Action.removeLabelA log.id current_local]
            else [])
      else []) ++
      (if truthyOpt d.verified_candidate then
        (if !truthyOpt d.correction_candidate then
          [Action.setCorrection log.id (d.verified_candidate.getD ""),
           Action.emitTraining log.id (d.verified_candidate.getD "")
             (exampleOfRow log)]
        else []) ++ [Action.removeLabelA log.id verification_label]
      else []) ++
      [Action.setRecheck log.id PyStrVal.none]

/-- One whole recheck pass over the candidate list, as the flat sequence of
operations it performs. -/
def check_corrections_pass (known_categories : List String)
    (verification_label : String)
    (labels_map : String → Option (List String))
    (candidates : List LogRecord) : List Action :=
  (candidates.map
    (reconcileActions known_categories verification_label labels_map)).flatten

/-- Recognizer of a training-data append originating from message `i`. -/
def isEmitFor (i : String) : Action → Bool
  | Action.emitTraining id _ _ => id == i
  | _ => false

/-- The number of training-data lines emitted for message `i`. -/
def emitCount (i : String) (acts : List Action) : Nat :=
  (acts.filter (isEmitFor i)).length

/-- Per candidate, the reconciliation emits no training line for foreign
ids, and at most one for its own id — even when both a correction and a
verification apply, the verification branch re-checks
`if not correction_candidate`. -/
theorem reconcile_emit_bound (known_categories : List String)
    (verification_label : String)
    (labels_map : String → Option (List String)) (log : LogRecord)
    (i : String) :
    emitCount i (reconcileActions known_categories verification_label
        labels_map log)
      ≤ if log.id = i then 1 else 0 := by
  unfold reconcileActions
  cases hm : labels_map log.id with
  | none =>
    by_cases hid : log.id = i <;>
      simp [emitCount, isEmitFor, hid]
  | some found_labels =>
    simp only []
    cases hamb : (classifyState
        (found_labels.filter (fun lbl => known_categories.contains lbl))
        (found_labels.contains verification_label)
        (pyOrStr log.corrected_category log.predicted_category)).is_ambiguous
    · cases hcor : truthyOpt (classifyState
          (found_labels.filter (fun lbl => known_categories.contains lbl))
          (found_labels.contains verification_label)
          (pyOrStr log.corrected_category
            log.predicted_category)).correction_candidate <;>
      cases hver : truthyOpt (classifyState
          (found_labels.filter (fun lbl => known_categories.contains lbl))
          (found_labels.contains verification_label)
          (pyOrStr log.corrected_category
            log.predicted_category)).verified_candidate <;>
      cases hcl : (classifyState
          (found_labels.filter (fun lbl => known_categories.contains lbl))
          (found_labels.contains verification_label)
          (pyOrStr log.corrected_category
            log.predicted_category)).cleanup_needed <;>
      by_cases hid : log.id = i <;>
        simp [emitCount, isEmitFor, hamb, hcor, hver, hcl, hid]
    · by_cases hid : log.id = i <;>
        simp [emitCount, isEmitFor, hamb, hid]

/-- `emitCount` splits over action concatenation. -/
theorem emitCount_append (i : String) (a b : List Action) :
    emitCount i (a ++ b) = emitCount i a + emitCount i b := by
  simp [emitCount, List.filter_append]

/-- A pass over candidates that do not carry id `i` emits nothing for `i`. -/
theorem pass_emit_zero_of_not_mem (known_categories : List String)
    (verification_label : String)
    (labels_map : String → Option (List String)) (i : String) :
    ∀ candidates : List LogRecord, i ∉ candidates.map LogRecord.id →
    emitCount i (check_corrections_pass known_categories verification_label
        labels_map candidates) = 0 := by
  intro candidates
  induction candidates with
  | nil => intro _; rfl
  | cons c cs ih =>
    intro hnot
    have hne : c.id ≠ i := by
      intro h
      exact hnot (by simp [h])
    have hcs : i ∉ cs.map LogRecord.id := by
      intro h
      exact hnot (by simp [h])
    have hbound := reconcile_emit_bound known_categories verification_label
      labels_map c i
    rw [if_neg hne] at hbound
    have h0 : emitCount i (reconcileActions known_categories
        verification_label labels_map c) = 0 := Nat.le_zero.mp hbound
    show emitCount i (check_corrections_pass known_categories
        verification_label labels_map (c :: cs)) = 0
    unfold check_corrections_pass at ih ⊢
    rw [List.map_cons, List.flatten_cons]
    rw [emitCount_append, h0, ih hcs]

/-- C4: in one recheck pass over candidates with pairwise distinct ids (the
journal's primary key guarantees this), at most one training-data line is
emitted per message id — even when the pass concludes both a correction and
a verification for that id. -/
theorem C4_at_most_one_emission (known_categories : List String)
    (verification_label : String)
    (labels_map : String → Option (List String))
    (candidates : List LogRecord) (i : String)
    (hnodup : (candidates.map LogRecord.id).Nodup) :
    emitCount i (check_corrections_pass known_categories verification_label
        labels_map candidates) ≤ 1 := by
  induction candidates with
  | nil => exact Nat.zero_le 1
  | cons c cs ih =>
    have hnodup' : (cs.map LogRecord.id).Nodup :=
      (List.nodup_cons.mp (by simpa using hnodup)).2
    have hcnot : c.id ∉ cs.map LogRecord.id :=
      (List.nodup_cons.mp (by simpa using hnodup)).1
    unfold check_corrections_pass
    rw [List.map_cons, List.flatten_cons, emitCount_append]
    by_cases hci : c.id = i
    · have hz : emitCount i (check_corrections_pass known_categories
          verification_label labels_map cs) = 0 :=
        pass_emit_zero_of_not_mem known_categories verification_label
          labels_map i cs (hci ▸ hcnot)
      unfold check_corrections_pass at hz
      rw [hz]
      have hbound := reconcile_emit_bound known_categories
        verification_label labels_map c i
      rw [if_pos hci] at hbound
      omega
    · have hbound := reconcile_emit_bound known_categories
        verification_label labels_map c i
      rw [if_neg hci] at hbound
      have h1 := ih hnodup'
      unfold check_corrections_pass at h1
      omega

/-- Witness for C4: the S4-style scenario (one trained label plus the
verification sentinel, differing from the local truth) concludes both a
correction and a verification, yet at most one line is emitted. -/
theorem C4_witness :
    emitCount "m1" (check_corrections_pass ["FOCUS", "NOISE"] "__VERIFIED__"
        (fun i => if i == "m1" then some ["FOCUS", "__VERIFIED__"]
                  else Option.none)
        [rowW]) ≤ 1 :=
  C4_at_most_one_emission ["FOCUS", "NOISE"] "__VERIFIED__"
    (fun i => if i == "m1" then some ["FOCUS", "__VERIFIED__"]
              else Option.none)
    [rowW] "m1" (by decide)

/-- C5: whenever the reconciliation classifies a present candidate as
ambiguous, the pass performs exactly one operation for it — `SetRecheck`
with `ambiguous_candidates` equal to the trained labels found on the
message — so no training-data line, no label addition and no label removal
occur for that message. -/
theorem C5_ambiguous_outcome (known_categories : List String)
    (verification_label : String)
    (labels_map : String → Option (List String)) (log : LogRecord)
    (found_labels : List String)
    (hmap : labels_map log.id = some found_labels)
    (hamb : (classifyState
        (found_labels.filter (fun lbl => known_categories.contains lbl))
        (found_labels.contains verification_label)
        (pyOrStr log.corrected_category
          log.predicted_category)).is_ambiguous = true) :
    reconcileActions known_categories verification_label labels_map log
      = [Action.setRecheck log.id (PyStrVal.list
          (found_labels.filter (fun lbl => known_categories.contains lbl)))] := by
  unfold reconcileActions
  rw [hmap]
  simp only [hamb, if_true]

/-- The S5 journal row: predicted NOISE, never corrected. -/
def rowS5 : LogRecord := mkRow "g5" 500 false

/-- Witness for C5 at the spec's S5 scenario: labels FOCUS, URGENT,
REFERENCE on the server, local truth NOISE. -/
theorem C5_witness :
    reconcileActions ["FOCUS", "NOISE", "REFERENCE", "URGENT"] "__VERIFIED__"
        (fun i => if i == "g5" then some ["FOCUS", "URGENT", "REFERENCE"]
                  else Option.none)
        rowS5
      = [Action.setRecheck "g5"
          (PyStrVal.list ["FOCUS", "URGENT", "REFERENCE"])] := by
  have h := C5_ambiguous_outcome ["FOCUS", "NOISE", "REFERENCE", "URGENT"]
    "__VERIFIED__"
    (fun i => if i == "g5" then some ["FOCUS", "URGENT", "REFERENCE"]
              else Option.none)
    rowS5 ["FOCUS", "URGENT", "REFERENCE"] (by rfl) (by decide)
  simpa using h

/-- The state the jobs act on: the journal, the server-side label sets and
the training-data store. -/
structure EngineState where
  db : Db
  server : String → List String
  training : TrainStore

/-- `client.apply_label` effect on the server state: add the label to the
message's label set when not already present. -/
def serverApplyLabel (server : String → List String) (id label : String) :
    String → List String :=
  fun i => if i == id then
    (if (server id).contains label then server id else server id ++ [label])
  else server i

/-- `client.remove_label` effect on the server state. -/
def serverRemoveLabel (server : String → List String) (id label : String) :
    String → List String :=
  fun i => if i == id then (server id).filter (fun l => !(l == label))
  else server i

/-- Interpretation of one recheck operation against the engine state. -/
def applyAction (now : Int) (st : EngineState) : Action → EngineState
  | Action.applyLabelA id label =>
    { st with server := serverApplyLabel st.server id label }
  | Action.removeLabelA id label =>
    { st with server := serverRemoveLabel st.server id label }
  | Action.setCorrection id category =>
    { st with db := update_log_correction st.db id category }
  | Action.emitTraining _ category ex =>
    { st with training := st.training ++ [(category, ex)] }
  | Action.setRecheck id amb =>
    { st with db := update_recheck_status st.db id amb now }

/-- Running a sequence of recheck operations in order. -/
def runActions (now : Int) (st : EngineState) (acts : List Action) :
    EngineState :=
  acts.foldl (applyAction now) st

/-- The C6 failing input: a recheck candidate whose previous reconciliation
was ambiguous, so its `ambiguous_labels` column holds stored JSON text. -/
def rowC6 : LogRecord :=
  { mkRow "g6" 600 false with ambiguous_labels := some "[\"FOCUS\", \"URGENT\"]" }

/-- C6 evaluated at the failing input: for a candidate absent from the
gateway's label map, the pass performs only a `SetRecheck` (no training
line, no label operation) — but because the raw `ambiguous_labels` column
text is fed back through `json.dumps`, the stored ambiguity set is
re-encoded to the JSON string of the old text instead of being left
unchanged, while `last_recheck` is refreshed and `corrected_category` and
`predicted_category` are untouched. -/
theorem C6_absent_recheck_bug :
    reconcileActions ["FOCUS", "NOISE", "URGENT"] "__VERIFIED__"
        (fun _ => Option.none) rowC6
      = [Action.setRecheck "g6" (PyStrVal.str "[\"FOCUS\", \"URGENT\"]")] ∧
    (runActions 777 ⟨[rowC6], fun _ => [], []⟩
        (reconcileActions ["FOCUS", "NOISE", "URGENT"] "__VERIFIED__"
          (fun _ => Option.none) rowC6)).db
      = [{ rowC6 with
            last_recheck := some 777
            ambiguous_labels := some (jsonStr "[\"FOCUS\", \"URGENT\"]") }] ∧
    some (jsonStr "[\"FOCUS\", \"URGENT\"]") ≠ rowC6.ambiguous_labels ∧
    (runActions 777 ⟨[rowC6], fun _ => [], []⟩
        (reconcileActions ["FOCUS", "NOISE", "URGENT"] "__VERIFIED__"
          (fun _ => Option.none) rowC6)).training = [] := by
  refine ⟨by decide, by decide, by decide, by decide⟩

/-- The per-message data `extract_email_info` produces, together with the
parsed Date header (`None` when missing or unparsable). -/
structure EmailInfo where
  subject : String
  body : String
  sender : String
  to_addr : String
  cc : String
  mass_mail : Bool
  attachment_types : List String
  date : Option Int
deriving Repr, DecidableEq

/-- One iteration of the ingest loop of `classification_job`: predict, then
`client.apply_label`, then `database.add_log` with the prediction, score
and envelope. -/
def ingestOne (predict : EmailInfo → String × Rat) (now : Int)
    (st : Db × (String → List String)) (e : String × EmailInfo) :
    Db × (String → List String) :=
  let label := (predict e.2).1
  let score := (predict e.2).2
  let server := serverApplyLabel st.2 e.1 label
  let db := add_log st.1
    { id := e.1
      sender := e.2.sender
      recipient := e.2.to_addr
      subject := e.2.subject
      predicted_category := label
      confidence_score := score
      timestamp := e.2.date
      body := e.2.body
      cc := e.2.cc
      mass_mail := e.2.mass_mail
      attachment_types := some e.2.attachment_types } now
  (db, server)

/-- The batch loop of `classification_job`: the fetched list is truncated
to `limit`; a message whose per-message try block raises (oracle `ok`
false) is logged and skipped with no effect, and the loop continues. -/
def classification_job_run (predict : EmailInfo → String × Rat) (now : Int)
    (emails : List (String × EmailInfo)) (limit : Nat) (ok : String → Bool)
    (db : Db) (server : String → List String) :
    Db × (String → List String) :=
  (emails.take limit).foldl
    (fun st e => if ok e.1 then ingestOne predict now st e else st)
    (db, server)

/-- After `add_log`, the upserted id maps to a row carrying the new
prediction and score. -/
theorem add_log_get_self (db : Db) (a : AddLogArgs) (now : Int) :
    ∃ r, get_log_by_id (add_log db a now) a.id = some r ∧
      r.predicted_category = a.predicted_category ∧
      r.confidence_score = a.confidence_score := by
  have hid : ∀ rr : LogRecord, (updClassification a now rr).id = rr.id := by
    intro rr
    by_cases hrr : rr.id = a.id <;> simp [updClassification, hrr]
  cases hany : db.any (fun r => r.id == a.id) with
  | true =>
    have hform : add_log db a now = db.map (updClassification a now) := by
      simp [add_log, hany]
    rw [hform, get_log_by_id, find?_map_of_id_eq _ hid]
    have hs : (db.find? (fun r => r.id == a.id)).isSome := by
      rw [List.find?_isSome]
      simpa [List.any_eq_true] using hany
    obtain ⟨r0, hr0⟩ := Option.isSome_iff_exists.mp hs
    have hpr0 := List.find?_some hr0
    have hpr : (r0.id == a.id) = true := by simpa using hpr0
    rw [hr0]
    exact ⟨updClassification a now r0, rfl,
      by simp [updClassification, hpr], by simp [updClassification, hpr]⟩
  | false =>
    have hform : add_log db a now = db ++ [freshRow a now] := by
      simp [add_log, hany]
    have hnone : db.find? (fun r => r.id == a.id) = Option.none := by
      rw [List.find?_eq_none]
      intro x hx
      have hfx := List.any_eq_false.mp hany x hx
      simpa using hfx
    rw [hform, get_log_by_id, List.find?_append, hnone]
    exact ⟨freshRow a now, by simp [List.find?, freshRow], rfl, rfl⟩

/-- `add_log` leaves the lookup of any other id unchanged. -/
theorem add_log_get_other (db : Db) (a : AddLogArgs) (now : Int) (i : String)
    (hne : a.id ≠ i) :
    get_log_by_id (add_log db a now) i = get_log_by_id db i := by
  have hid : ∀ rr : LogRecord, (updClassification a now rr).id = rr.id := by
    intro rr
    by_cases hrr : rr.id = a.id <;> simp [updClassification, hrr]
  cases hany : db.any (fun r => r.id == a.id) with
  | true =>
    have hform : add_log db a now = db.map (updClassification a now) := by
      simp [add_log, hany]
    rw [hform, get_log_by_id, find?_map_of_id_eq _ hid, get_log_by_id]
    cases hf : db.find? (fun r => r.id == i) with
    | none => rfl
    | some r =>
      have hri0 := List.find?_some hf
      have hri : (r.id == i) = true := by simpa using hri0
      have hrne : r.id ≠ a.id := by
        intro hcontra
        apply hne
        rw [← hcontra]
        simpa using hri
      simp [updClassification, hrne]
  | false =>
    have hform : add_log db a now = db ++ [freshRow a now] := by
      simp [add_log, hany]
    have hbe : (a.id == i) = false := by simpa using hne
    have h2 : [freshRow a now].find? (fun r => r.id == i) = Option.none := by
      simp [List.find?, freshRow, hbe]
    rw [hform, get_log_by_id, List.find?_append, get_log_by_id]
    cases hf : db.find? (fun r => r.id == i) with
    | none => simpa [Option.orElse] using h2
    | some r => rfl

/-- `apply_label` puts the label into the target's label set. -/
theorem serverApplyLabel_self_mem (server : String → List String)
    (id label : String) :
    label ∈ serverApplyLabel server id label id := by
  unfold serverApplyLabel
  rw [if_pos (beq_self_eq_true id)]
  by_cases h : (server id).contains label
  · rw [if_pos h]
    simpa using h
  · rw [if_neg (by simpa using h)]
    exact List.mem_append_right _ (List.mem_singleton.mpr rfl)

/-- `apply_label` does not touch the label set of any other message. -/
theorem serverApplyLabel_other (server : String → List String)
    (id label i : String) (hne : i ≠ id) :
    serverApplyLabel server id label i = server i := by
  unfold serverApplyLabel
  simp [hne]

/-- Folding ingest steps for messages with foreign ids preserves the
server label set and the journal lookup of `e_id`. -/
theorem ingest_fold_preserves (predict : EmailInfo → String × Rat) (now : Int)
    (ok : String → Bool) (e_id : String) :
    ∀ (l : List (String × EmailInfo)) (st : Db × (String → List String)),
      e_id ∉ l.map Prod.fst →
      ((l.foldl (fun st e => if ok e.1 then ingestOne predict now st e else st)
          st).2 e_id = st.2 e_id ∧
       get_log_by_id (l.foldl (fun st e =>
           if ok e.1 then ingestOne predict now st e else st) st).1 e_id
         = get_log_by_id st.1 e_id) := by
  intro l
  induction l with
  | nil => intro st _; exact ⟨rfl, rfl⟩
  | cons e es ih =>
    intro st hnot
    have hparts : e_id ≠ e.1 ∧ e_id ∉ es.map Prod.fst := by
      simpa [not_or] using hnot
    rw [List.foldl_cons]
    cases hoke : ok e.1 with
    | false =>
      rw [if_neg (by simp)]
      exact ih st hparts.2
    | true =>
      rw [if_pos rfl]
      have hstep : (ingestOne predict now st e).2 e_id = st.2 e_id ∧
          get_log_by_id (ingestOne predict now st e).1 e_id
            = get_log_by_id st.1 e_id := by
        constructor
        · exact serverApplyLabel_other st.2 e.1 (predict e.2).1 e_id hparts.1
        · exact add_log_get_other st.1 _ now e_id
            (fun h => hparts.1 h.symm)
      obtain ⟨ihs, ihd⟩ := ih (ingestOne predict now st e) hparts.2
      exact ⟨ihs.trans hstep.1, ihd.trans hstep.2⟩

/-- A successful ingest step for `(e_id, info)` leaves the predicted label
on the server and the prediction and score in the journal row. -/
theorem ingestOne_establishes (predict : EmailInfo → String × Rat) (now : Int)
    (st : Db × (String → List String)) (e_id : String) (info : EmailInfo) :
    (predict info).1 ∈ (ingestOne predict now st (e_id, info)).2 e_id ∧
    ∃ r, get_log_by_id (ingestOne predict now st (e_id, info)).1 e_id
        = some r ∧
      r.predicted_category = (predict info).1 ∧
      r.confidence_score = (predict info).2 := by
  constructor
  · exact serverApplyLabel_self_mem st.2 e_id (predict info).1
  · exact add_log_get_self st.1
      { id := e_id
        sender := info.sender
        recipient := info.to_addr
        subject := info.subject
        predicted_category := (predict info).1
        confidence_score := (predict info).2
        timestamp := info.date
        body := info.body
        cc := info.cc
        mass_mail := info.mass_mail
        attachment_types := some info.attachment_types } now

/-- C1: during an ingest pass, for every message `(id, m)` of the processed
batch whose gateway, classifier and journal operations all run and succeed,
immediately after the pass the server-side label set of `id` contains the
predicted category, and the journal row for `id` carries exactly that
prediction and the returned score. -/
theorem C1_ingest_roundtrip (predict : EmailInfo → String × Rat) (now : Int)
    (emails : List (String × EmailInfo)) (limit : Nat) (ok : String → Bool)
    (db : Db) (server : String → List String) (e_id : String)
    (info : EmailInfo)
    (hmem : (e_id, info) ∈ emails.take limit)
    (hok : ok e_id = true)
    (hnodup : ((emails.take limit).map Prod.fst).Nodup) :
    (predict info).1 ∈
      (classification_job_run predict now emails limit ok db server).2 e_id ∧
    ∃ r, get_log_by_id
        (classification_job_run predict now emails limit ok db server).1 e_id
        = some r ∧
      r.predicted_category = (predict info).1 ∧
      r.confidence_score = (predict info).2 := by
  obtain ⟨l1, l2, hsplit⟩ := List.append_of_mem hmem
  have hnodup2 := hnodup
  rw [hsplit] at hnodup2
  simp only [List.map_append, List.map_cons] at hnodup2
  have hcons : (e_id :: l2.map Prod.fst).Nodup :=
    List.Nodup.of_append_right hnodup2
  have hl2 : e_id ∉ l2.map Prod.fst := (List.nodup_cons.mp hcons).1
  unfold classification_job_run
  rw [hsplit, List.foldl_append, List.foldl_cons, if_pos hok]
  obtain ⟨hs, hd⟩ := ingest_fold_preserves predict now ok e_id l2
    (ingestOne predict now
      (l1.foldl (fun st e => if ok e.1 then ingestOne predict now st e else st)
        (db, server)) (e_id, info)) hl2
  constructor
  · rw [hs]
    exact (ingestOne_establishes predict now _ e_id info).1
  · rw [hd]
    exact (ingestOne_establishes predict now _ e_id info).2

/-- The concrete S1-style message used by the C1 witness. -/
def infoW : EmailInfo :=
  { subject := "Server down"
    body := "All services are offline"
    sender := "ops@x"
    to_addr := "me@x"
    cc := ""
    mass_mail := false
    attachment_types := []
    date := Option.none }

/-- Witness for C1: a one-message batch classified URGENT at score 0.95. -/
theorem C1_witness :
    ("URGENT" : String) ∈
      (classification_job_run (fun _ => ("URGENT", (19 : Rat) / 20)) 100
        [("g1", infoW)] 20 (fun _ => true) [] (fun _ => [])).2 "g1" ∧
    ∃ r, get_log_by_id
        ((classification_job_run (fun _ => ("URGENT", (19 : Rat) / 20)) 100
          [("g1", infoW)] 20 (fun _ => true) [] (fun _ => []))).1 "g1"
        = some r ∧
      r.predicted_category = "URGENT" ∧
      r.confidence_score = (19 : Rat) / 20 := by
  have h := C1_ingest_roundtrip (fun _ => ("URGENT", (19 : Rat) / 20)) 100
    [("g1", infoW)] 20 (fun _ => true) [] (fun _ => []) "g1" infoW
    (by decide) rfl (by decide)
  simpa using h

/-- Control point of one contender with respect to the job permit: `idle`
(before the entry acquire), `running` (holds the permit: between the
successful `job_lock.acquire(blocking=False)` and the `finally`), `skipped`
(the non-blocking acquire failed and the job returned the skipped outcome
at once), `done` (the body exited, normally or by exception, and the
`finally` released the permit). -/
inductive JobPc where
  | idle : JobPc
  | running : JobPc
  | skipped : JobPc
  | done : JobPc
deriving Repr, DecidableEq

/-- The process state for `n` contenders (scheduler firings of
`classification_job` / `check_corrections_job` and manual `reclassify_job`
invocations): the `job_lock` bit, each contender's control point, and the
number of gateway/journal operations each contender has performed. -/
structure PermitState (n : Nat) where
  lockHeld : Bool
  pc : Fin n → JobPc
  ops : Fin n → Nat

/-- Interleaving semantics of the jobs of `main.py` against the shared
`threading.Lock`: the non-blocking acquire atomically tests and sets the
lock; a failed acquire moves the contender to `skipped` immediately with no
effect; a running body may perform gateway/journal operations; the
`finally` of every job releases the permit on each exit path. -/
inductive PermitStep (n : Nat) : PermitState n → PermitState n → Prop where
  | acquireOk (s : PermitState n) (i : Fin n) (hpc : s.pc i = JobPc.idle)
      (hlock : s.lockHeld = false) :
      PermitStep n s
        { lockHeld := true
          pc := Function.update s.pc i JobPc.running
          ops := s.ops }
  | acquireFail (s : PermitState n) (i : Fin n) (hpc : s.pc i = JobPc.idle)
      (hlock : s.lockHeld = true) :
      PermitStep n s { s with pc := Function.update s.pc i JobPc.skipped }
  | work (s : PermitState n) (i : Fin n) (hpc : s.pc i = JobPc.running) :
      PermitStep n s { s with ops := Function.update s.ops i (s.ops i + 1) }
  | finish (s : PermitState n) (i : Fin n) (hpc : s.pc i = JobPc.running) :
      PermitStep n s
        { lockHeld := false
          pc := Function.update s.pc i JobPc.done
          ops := s.ops }

/-- The initial state: permit free, every contender idle, no operations. -/
def permitInit (n : Nat) : PermitState n :=
  { lockHeld := false, pc := fun _ => JobPc.idle, ops := fun _ => 0 }

/-- States reachable from the initial state by interleaved job steps. -/
def PermitReachable (n : Nat) (s : PermitState n) : Prop :=
  Relation.ReflTransGen (PermitStep n) (permitInit n) s

/-- The inductive permit invariant: at most one runner; the lock is held
exactly when someone runs; contenders that never ran performed no
operation. -/
def PermitInv (n : Nat) (s : PermitState n) : Prop :=
  (∀ i j, s.pc i = JobPc.running → s.pc j = JobPc.running → i = j) ∧
  (s.lockHeld = true → ∃ i, s.pc i = JobPc.running) ∧
  (s.lockHeld = false → ∀ i, s.pc i ≠ JobPc.running) ∧
  (∀ i, s.pc i = JobPc.idle ∨ s.pc i = JobPc.skipped → s.ops i = 0)

/-- The permit invariant is preserved by every step. -/
theorem permitInv_step (n : Nat) (s s' : PermitState n)
    (hinv : PermitInv n s) (hstep : PermitStep n s s') : PermitInv n s' := by
  obtain ⟨hA, hB, hC, hD⟩ := hinv
  cases hstep with
  | acquireOk i hpc hlock =>
    refine ⟨?_, ?_, ?_, ?_⟩
    · intro j k hj hk
      have hj' : Function.update s.pc i JobPc.running j = JobPc.running := hj
      have hk' : Function.update s.pc i JobPc.running k = JobPc.running := hk
      by_cases hji : j = i
      · by_cases hki : k = i
        · rw [hji, hki]
        · rw [Function.update_noteq hki] at hk'
          exact absurd hk' (hC hlock k)
      · rw [Function.update_noteq hji] at hj'
        exact absurd hj' (hC hlock j)
    · intro _
      exact ⟨i, show Function.update s.pc i JobPc.running i = JobPc.running
        from Function.update_same i JobPc.running s.pc⟩
    · intro hfalse
      exact absurd hfalse (by simp)
    · intro j hj
      have hj' : Function.update s.pc i JobPc.running j = JobPc.idle ∨
          Function.update s.pc i JobPc.running j = JobPc.skipped := hj
      show s.ops j = 0
      by_cases hji : j = i
      · rw [hji, Function.update_same] at hj'
        rcases hj' with hj' | hj' <;> exact absurd hj' (by simp)
      · rw [Function.update_noteq hji] at hj'
        exact hD j hj'
  | acquireFail i hpc hlock =>
    refine ⟨?_, ?_, ?_, ?_⟩
    · intro j k hj hk
      have hj' : Function.update s.pc i JobPc.skipped j = JobPc.running := hj
      have hk' : Function.update s.pc i JobPc.skipped k = JobPc.running := hk
      by_cases hji : j = i
      · rw [hji, Function.update_same] at hj'
        exact absurd hj' (by simp)
      · by_cases hki : k = i
        · rw [hki, Function.update_same] at hk'
          exact absurd hk' (by simp)
        · rw [Function.update_noteq hji] at hj'
          rw [Function.update_noteq hki] at hk'
          exact hA j k hj' hk'
    · intro _
      obtain ⟨k, hk⟩ := hB hlock
      have hki : k ≠ i := by
        intro hcontra
        rw [hcontra, hpc] at hk
        exact absurd hk (by simp)
      exact ⟨k, show Function.update s.pc i JobPc.skipped k = JobPc.running by
        rw [Function.update_noteq hki]; exact hk⟩
    · intro hfalse
      have : s.lockHeld = false := hfalse
      rw [hlock] at this
      exact absurd this (by simp)
    · intro j hj
      have hj' : Function.update s.pc i JobPc.skipped j = JobPc.idle ∨
          Function.update s.pc i JobPc.skipped j = JobPc.skipped := hj
      show s.ops j = 0
      by_cases hji : j = i
      · rw [hji]
        exact hD i (Or.inl hpc)
      · rw [Function.update_noteq hji] at hj'
        exact hD j hj'
  | work i hpc =>
    refine ⟨hA, hB, hC, ?_⟩
    · intro j hj
      have hj' : s.pc j = JobPc.idle ∨ s.pc j = JobPc.skipped := hj
      have hji : j ≠ i := by
        intro hcontra
        rw [hcontra, hpc] at hj'
        rcases hj' with hj' | hj' <;> exact absurd hj' (by simp)
      show Function.update s.ops i (s.ops i + 1) j = 0
      rw [Function.update_noteq hji]
      exact hD j hj'
  | finish i hpc =>
    refine ⟨?_, ?_, ?_, ?_⟩
    · intro j k hj hk
      have hj' : Function.update s.pc i JobPc.done j = JobPc.running := hj
      by_cases hji : j = i
      · rw [hji, Function.update_same] at hj'
        exact absurd hj' (by simp)
      · rw [Function.update_noteq hji] at hj'
        exact absurd (hA j i hj' hpc) hji
    · intro hfalse
      exact absurd hfalse (by simp)
    · intro _ j
      show Function.update s.pc i JobPc.done j ≠ JobPc.running
      by_cases hji : j = i
      · rw [hji, Function.update_same]
        simp
      · rw [Function.update_noteq hji]
        intro hj
        exact hji (hA j i hj hpc)
    · intro j hj
      have hj' : Function.update s.pc i JobPc.done j = JobPc.idle ∨
          Function.update s.pc i JobPc.done j = JobPc.skipped := hj
      show s.ops j = 0
      by_cases hji : j = i
      · rw [hji, Function.update_same] at hj'
        rcases hj' with hj' | hj' <;> exact absurd hj' (by simp)
      · rw [Function.update_noteq hji] at hj'
        exact hD j hj'

/-- The permit invariant holds in every reachable state. -/
theorem permitInv_reachable (n : Nat) (s : PermitState n)
    (h : PermitReachable n s) : PermitInv n s := by
  induction h with
  | refl =>
    refine ⟨fun i j hi _ => ?_, fun hlock => ?_, fun _ i hi => ?_,
      fun i _ => rfl⟩
    · exact absurd hi (by simp [permitInit])
    · exact absurd hlock (by simp [permitInit])
    · exact absurd hi (by simp [permitInit])
  | tail hab hbc ih => exact permitInv_step n _ _ ih hbc

/-- C9: in every reachable interleaving of the jobs, at most one contender
is running at any instant; a contender that lost the non-blocking acquire
is `skipped` having performed no gateway/journal operation; and whenever no
contender is running — every job has exited, normally or exceptionally —
the permit is released. -/
theorem C9_permit_exclusivity (n : Nat) (s : PermitState n)
    (h : PermitReachable n s) :
    (∀ i j, s.pc i = JobPc.running → s.pc j = JobPc.running → i = j) ∧
    (∀ i, s.pc i = JobPc.skipped → s.ops i = 0) ∧
    ((∀ i, s.pc i ≠ JobPc.running) → s.lockHeld = false) := by
  obtain ⟨hA, hB, _, hD⟩ := permitInv_reachable n s h
  refine ⟨hA, fun i hi => hD i (Or.inr hi), fun hnone => ?_⟩
  cases hlock : s.lockHeld with
  | false => rfl
  | true =>
    obtain ⟨k, hk⟩ := hB hlock
    exact absurd hk (hnone k)

/-- The state after contender 0 acquires the permit. -/
def permitS1 : PermitState 2 :=
  { lockHeld := true
    pc := Function.update (permitInit 2).pc 0 JobPc.running
    ops := (permitInit 2).ops }

/-- The state after contender 1 then fails the non-blocking acquire. -/
def permitS2 : PermitState 2 :=
  { permitS1 with pc := Function.update permitS1.pc 1 JobPc.skipped }

/-- `permitS2` is reachable: acquire by job 0, then failed acquire by
job 1. -/
theorem permitS2_reachable : PermitReachable 2 permitS2 := by
  have h1 : PermitStep 2 (permitInit 2) permitS1 :=
    PermitStep.acquireOk (permitInit 2) 0 rfl rfl
  have h2 : PermitStep 2 permitS1 permitS2 :=
    PermitStep.acquireFail permitS1 1
      (by simp [permitS1, permitInit, Function.update]) rfl
  exact Relation.ReflTransGen.tail (Relation.ReflTransGen.tail
    Relation.ReflTransGen.refl h1) h2

/-- Witness for C9 at the concrete two-contender run: the skipped contender
has performed no operation. -/
theorem C9_witness : permitS2.ops 1 = 0 :=
  (C9_permit_exclusivity 2 permitS2 permitS2_reachable).2.1 1
    (by simp [permitS2, Function.update])

end EmailClassifier
